import Mathlib

/-!
Shallow embedding of the `yt_info_extract` package (files
`yt_info_extract/extractor.py` and `yt_info_extract/utils.py`).

Python strings are modelled as `List Char`; Python `None` as `Option.none`;
Python runtime exceptions raised by the constructor as `Except`.  The three
external backends (official Data API client, the `yt_dlp` library and the
`pytubefix` library) are modelled as an oracle (`World`): for each backend a
function from the video id and the 0-indexed attempt number to the normalized
record the corresponding adapter would return, with `none` standing for every
failure mode the adapter maps to `None` (network error, missing video,
exception raised by the library, ...).  Time delays (`time.sleep`) are not
executed; the backoff delays that the retry loop would sleep are collected in
a trace so that theorems can speak about them.
-/

namespace YtInfoExtract

/-! ## Identifier validation (`extractor.py`, `_validate_video_id`) -/

/-- The character class of the regex `[A-Za-z0-9_-]`. -/
def isIdChar (c : Char) : Bool :=
  ('A' ≤ c && c ≤ 'Z') || ('a' ≤ c && c ≤ 'z') || ('0' ≤ c && c ≤ '9') ||
    c = '_' || c = '-'

/-- `_validate_video_id`: `video_id` is returned unchanged iff it has length 11
and matches `^[A-Za-z0-9_-]{11}$`; otherwise `None`.  (On a string of length
exactly 11 the regex match is equivalent to every character being in the
class.) -/
def validate_video_id (video_id : List Char) : Option (List Char) :=
  if video_id.length = 11 ∧ video_id.all isIdChar then some video_id else none

/-! ## String helpers used by `utils.py` -/

/-- ASCII fragment of Python's `\s` class (the inputs handled by the claims
are ASCII): space, tab, newline, carriage return, vertical tab, form feed. -/
def isPySpace (c : Char) : Bool :=
  c = ' ' || c = '\t' || c = '\n' || c = '\r' || c = '\x0b' || c = '\x0c'

/-- Python `str.strip()`: drop leading and trailing whitespace. -/
def pyStrip (s : List Char) : List Char :=
  ((s.dropWhile isPySpace).reverse.dropWhile isPySpace).reverse

/-- Worker for `re.sub(r"\s+", " ", s)`: the flag records whether we are
inside a whitespace run whose single replacement space was already emitted. -/
def collapseWsGo : Bool → List Char → List Char
  | _, [] => []
  | inWs, c :: rest =>
    if isPySpace c then
      if inWs then collapseWsGo true rest else ' ' :: collapseWsGo true rest
    else c :: collapseWsGo false rest

/-- `re.sub(r"\s+", " ", s)`: every maximal whitespace run becomes one space. -/
def collapseWs (s : List Char) : List Char := collapseWsGo false s

/-- The fixed placeholder returned for null/empty descriptions. -/
def noDescriptionPlaceholder : List Char := ("No description available").data

/-- `utils.clean_description`.  `description = none` models Python `None`;
the empty list is Python `""` (both are falsy, so both yield the
placeholder).  `max_length` defaults to 500 at every call site modelled
here; the argument is passed explicitly. -/
def clean_description (description : Option (List Char)) (max_length : Nat) :
    List Char :=
  match description with
  | none => noDescriptionPlaceholder
  | some d =>
    if d = [] then noDescriptionPlaceholder
    else
      let cleaned := collapseWs (pyStrip d)
      if max_length < cleaned.length then
        pyStrip (cleaned.take max_length) ++ ('.' :: '.' :: '.' :: [])
      else cleaned

/-! ## Data model (`extractor.py`) -/

/-- The normalized record shape produced by all three adapters.  Every field
except `extraction_method` may be `None` when the backend omits it; the
adapters always set `extraction_method`, but records handled by the utility
layer may lack it, hence `Option` there as well. -/
structure VideoRecord where
  title : Option (List Char)
  description : Option (List Char)
  channel_name : Option (List Char)
  publication_date : Option (List Char)
  views : Option Int
  extraction_method : Option (List Char)
deriving DecidableEq

/-- Oracle for the three external backends.  `api_response id n` is the
normalized record the official-API adapter body would produce for video `id`
on its `n`-th invocation (0-indexed across the retry loop), `none` covering
every failure the adapter converts to `None` (HTTP error, empty item list,
any exception).  Likewise for the `yt_dlp` and `pytubefix` libraries. -/
structure World where
  api_response : List Char → Nat → Option VideoRecord
  yt_dlp_response : List Char → Nat → Option VideoRecord
  pytubefix_response : List Char → Nat → Option VideoRecord

/-- The state of a constructed `YouTubeVideoInfoExtractor` that the claims
depend on.  `youtube_service` is whether `self.youtube_service` is non-`None`
(the Data API client was built); the two `_available` flags mirror the
module-level `YT_DLP_AVAILABLE` / `PYTUBEFIX_AVAILABLE` import guards.
`timeout` and `rate_limit_delay` only feed `time.sleep`/network calls and are
omitted from the state. -/
structure Extractor where
  strategy : List Char
  max_retries : Nat
  backoff_factor : ℚ
  youtube_service : Bool
  yt_dlp_available : Bool
  pytubefix_available : Bool

/-! ## Construction (`YouTubeVideoInfoExtractor.__init__`) -/

/-- The two exception classes `__init__` can raise. -/
inductive InitError where
  | valueError
  | importError
deriving DecidableEq

/-- Python `str.lower()` (ASCII). -/
def pyLower (s : List Char) : List Char := s.map Char.toLower

/-- Python `a or b` on optional strings: `a` unless it is falsy
(`None` or `""`). -/
def pyOrStr (a b : Option (List Char)) : Option (List Char) :=
  match a with
  | some k => if k = [] then b else some k
  | none => b

/-- Python truthiness of an optional string. -/
def optTruthy (s : Option (List Char)) : Bool :=
  match s with
  | none => false
  | some k => !k.isEmpty

/-- `__init__`.  `api_key` is the explicit argument, `env_key` the value of
the `YOUTUBE_API_KEY` environment variable (`none` when unset),
`google_api_available` the `googleapiclient` import guard, `build_ok` whether
`build(...)` succeeds (its failure is caught and only logged).  The body
lowercases the strategy, resolves the key, builds the service when possible,
then validates: unknown strategy raises `ValueError`; strategy `yt_dlp` or
`pytubefix` with the library absent raises `ImportError`.  No availability
check is made for strategy `api`. -/
def YouTubeVideoInfoExtractor.init
    (api_key env_key : Option (List Char)) (strategy : List Char)
    (max_retries : Nat) (backoff_factor : ℚ)
    (google_api_available yt_dlp_available pytubefix_available build_ok :
      Bool) : Except InitError Extractor :=
  let strat := pyLower strategy
  let key := pyOrStr api_key env_key
  let service := google_api_available && optTruthy key && build_ok
  if strat ≠ ("auto").data ∧ strat ≠ ("api").data ∧
      strat ≠ ("yt_dlp").data ∧ strat ≠ ("pytubefix").data then
    .error .valueError
  else if strat = ("yt_dlp").data ∧ yt_dlp_available = false then
    .error .importError
  else if strat = ("pytubefix").data ∧ pytubefix_available = false then
    .error .importError
  else
    .ok ⟨strat, max_retries, backoff_factor, service, yt_dlp_available,
      pytubefix_available⟩

/-! ## Source adapters -/

/-- `_get_video_info_api`: returns `None` immediately when
`self.youtube_service` is absent, else the (normalized) outcome of the
request, every error mapped to `None` by the oracle. -/
def get_video_info_api (e : Extractor) (w : World) (video_id : List Char)
    (attempt : Nat) : Option VideoRecord :=
  if e.youtube_service then w.api_response video_id attempt else none

/-- `_get_video_info_yt_dlp`: `None` when the library is not importable,
else the oracle outcome. -/
def get_video_info_yt_dlp (e : Extractor) (w : World) (video_id : List Char)
    (attempt : Nat) : Option VideoRecord :=
  if e.yt_dlp_available then w.yt_dlp_response video_id attempt else none

/-- `_get_video_info_pytubefix`: `None` when the library is not importable,
else the oracle outcome. -/
def get_video_info_pytubefix (e : Extractor) (w : World)
    (video_id : List Char) (attempt : Nat) : Option VideoRecord :=
  if e.pytubefix_available then w.pytubefix_response video_id attempt else none

/-! ## Retry controller (`_extract_with_retry`) -/

/-- The strategy dispatch inside the retry loop's body.  The outer `none`
means "unknown strategy" (the loop returns `None` at once); `some r` is the
adapter's result. -/
def dispatch_strategy (e : Extractor) (w : World)
    (video_id strategy : List Char) (attempt : Nat) :
    Option (Option VideoRecord) :=
  if strategy = ("api").data then
    some (get_video_info_api e w video_id attempt)
  else if strategy = ("yt_dlp").data then
    some (get_video_info_yt_dlp e w video_id attempt)
  else if strategy = ("pytubefix").data then
    some (get_video_info_pytubefix e w video_id attempt)
  else none

/-- Result of `_extract_with_retry` together with an execution trace:
how many adapter invocations happened and which backoff delays
(`backoff_factor ** attempt` time units) were slept, in order. -/
structure RetryResult where
  result : Option VideoRecord
  attempts : Nat
  delays : List ℚ
deriving DecidableEq

/-- The `for attempt in range(self.max_retries)` loop, over the list of
remaining attempt indices.  A non-null adapter result returns immediately;
after a null result a backoff of `backoff_factor ** attempt` is slept unless
this was the final attempt. -/
def retry_go (e : Extractor) (w : World) (video_id strategy : List Char) :
    List Nat → RetryResult
  | [] => ⟨none, 0, []⟩
  | attempt :: rest =>
    match dispatch_strategy e w video_id strategy attempt with
    | none => ⟨none, 0, []⟩
    | some (some r) => ⟨some r, 1, []⟩
    | some none =>
      if rest.isEmpty then ⟨none, 1, []⟩
      else
        let tail := retry_go e w video_id strategy rest
        ⟨tail.result, tail.attempts + 1,
          e.backoff_factor ^ attempt :: tail.delays⟩

/-- `_extract_with_retry`. -/
def extract_with_retry (e : Extractor) (w : World)
    (video_id strategy : List Char) : RetryResult :=
  retry_go e w video_id strategy (List.range e.max_retries)

/-! ## Orchestrator (`get_video_info`) -/

/-- Outcome of one `get_video_info` call with its accumulated adapter trace. -/
structure ExtractOutcome where
  result : Option VideoRecord
  attempts : Nat
  delays : List ℚ
deriving DecidableEq

/-- The ordered candidate list built under strategy `"auto"`:
api, yt_dlp, pytubefix — each included only if available. -/
def auto_strategy_list (e : Extractor) : List (List Char) :=
  (if e.youtube_service then [("api").data] else []) ++
    (if e.yt_dlp_available then [("yt_dlp").data] else []) ++
      (if e.pytubefix_available then [("pytubefix").data] else [])

/-- The `for strat in strategies` loop: try each candidate through the retry
controller until one succeeds. -/
def try_strategies (e : Extractor) (w : World) (video_id : List Char) :
    List (List Char) → ExtractOutcome
  | [] => ⟨none, 0, []⟩
  | s :: rest =>
    let r := extract_with_retry e w video_id s
    match r.result with
    | some rec0 => ⟨some rec0, r.attempts, r.delays⟩
    | none =>
      let next := try_strategies e w video_id rest
      ⟨next.result, r.attempts + next.attempts, r.delays ++ next.delays⟩

/-- `strategy or self.strategy`: the per-call override wins unless falsy. -/
def effective_strategy (e : Extractor) (strategy : Option (List Char)) :
    List Char :=
  match strategy with
  | none => e.strategy
  | some s => if s = [] then e.strategy else s

/-- `get_video_info`.  Validates the input (returning `None` with no adapter
invocation on failure), resolves the effective strategy, then either walks
the auto candidate list (empty list: `None` at once) or calls the retry
controller on the named strategy.  The pre-call rate-limit sleep touches no
adapter and is not recorded. -/
def get_video_info (e : Extractor) (w : World) (video_input : List Char)
    (strategy : Option (List Char)) : ExtractOutcome :=
  match validate_video_id video_input with
  | none => ⟨none, 0, []⟩
  | some video_id =>
    let use_strategy := effective_strategy e strategy
    if use_strategy = ("auto").data then
      try_strategies e w video_id (auto_strategy_list e)
    else
      let r := extract_with_retry e w video_id use_strategy
      ⟨r.result, r.attempts, r.delays⟩

/-! ## Batch driver (`batch_extract`) -/

/-- One element of a batch result: either a successfully extracted record or
the failure sentinel dict
`{"video_id": ..., "error": ..., "extraction_method": None}`. -/
inductive BatchItem where
  | record (r : VideoRecord)
  | failure (video_id : Option (List Char)) (error : List Char)
      (extraction_method : Option (List Char))
deriving DecidableEq

/-- `batch_extract`: one output per input, in order; on a null result the
failure sentinel carries `_validate_video_id(video_input)` and the fixed
message.  The inter-request sleep is not modelled. -/
def batch_extract (e : Extractor) (w : World)
    (video_inputs : List (List Char)) (strategy : Option (List Char)) :
    List BatchItem :=
  video_inputs.map fun video_input =>
    match (get_video_info e w video_input strategy).result with
    | some r => .record r
    | none =>
      .failure (validate_video_id video_input) ("Extraction failed").data none

/-! ## Utility layer dictionaries (`utils.py`)

`create_summary_report` and `export_to_csv` consume the dictionaries produced
by `get_video_info` / `batch_extract`.  Those dictionaries always carry the
keys below (a success record carries the six record keys and no `error`; the
batch failure sentinel carries `error`); a key holding Python `None` is
`Option.none` here. -/

structure VDict where
  title : Option (List Char)
  channel_name : Option (List Char)
  views : Option Int
  publication_date : Option (List Char)
  description : Option (List Char)
  extraction_method : Option (List Char)
  error : Option (List Char)
deriving DecidableEq

/-- Python truthiness of an optional int (`0` is falsy). -/
def intTruthy (v : Option Int) : Bool :=
  match v with
  | none => false
  | some n => n ≠ 0

/-! ## Summary report (`create_summary_report`) -/

/-- Insertion-ordered counter update, modelling
`d[k] = d.get(k, 0) + 1` on a Python dict (which preserves insertion
order, so a new key goes to the end). -/
def bump {α : Type} [DecidableEq α] (m : List (α × Nat)) (k : α) :
    List (α × Nat) :=
  match m with
  | [] => [(k, 1)]
  | (k', n) :: rest => if k' = k then (k', n + 1) :: rest else
      (k', n) :: bump rest k

/-- The accumulator of the statistics loop. -/
structure SummaryAcc where
  total_views : Int
  view_counts : List Int
  extraction_methods : List (Option (List Char) × Nat)
  channels : List (Option (List Char) × Nat)
  dates : List (List Char)
deriving DecidableEq

/-- One iteration of the `for video in video_data_list` loop: error records
are skipped entirely; views are accumulated only when truthy (so a view
count of 0 is skipped); the method and channel counters are always bumped;
a date is collected only when truthy. -/
def summary_step (acc : SummaryAcc) (video : VDict) : SummaryAcc :=
  if optTruthy video.error then acc
  else
    let acc1 :=
      match video.views with
      | some n =>
        if n ≠ 0 then
          { acc with
            total_views := acc.total_views + n
            view_counts := acc.view_counts ++ [n] }
        else acc
      | none => acc
    let em2 := bump acc1.extraction_methods video.extraction_method
    let acc2 := { acc1 with extraction_methods := em2 }
    let ch3 := bump acc2.channels video.channel_name
    let acc3 := { acc2 with channels := ch3 }
    match video.publication_date with
    | some d => if d = [] then acc3 else { acc3 with dates := acc3.dates ++ [d] }
    | none => acc3

/-- Python `min(xs)` / `max(xs)` on a nonempty list, for a strict comparison
`lt`: fold keeping the incumbent on ties (equal strings are identical, so the
tie behavior is irrelevant here). -/
def pyMin {α : Type} (lt : α → α → Bool) : List α → Option α
  | [] => none
  | x :: rest => some (rest.foldl (fun m y => if lt y m then y else m) x)

def pyMax {α : Type} (lt : α → α → Bool) : List α → Option α
  | [] => none
  | x :: rest => some (rest.foldl (fun m y => if lt m y then y else m) x)

/-- Python `<` on strings: lexicographic comparison by code point. -/
def lexLt : List Char → List Char → Bool
  | [], [] => false
  | [], _ :: _ => true
  | _ :: _, [] => false
  | a :: s, b :: t => if a < b then true else if b < a then false else lexLt s t

/-- Python `<` on ints. -/
def intLt (a b : Int) : Bool := a < b

/-- Stable descending insertion: the new pair goes after every incumbent with
a strictly larger count and before the first incumbent with a count `≤` its
own. -/
def insertDesc (x : Option (List Char) × Nat) :
    List (Option (List Char) × Nat) → List (Option (List Char) × Nat)
  | [] => [x]
  | y :: rest => if x.2 < y.2 then y :: insertDesc x rest else x :: y :: rest

/-- `sorted(channels.items(), key=lambda x: x[1], reverse=True)`:
Python's sort is stable, so equal-count items keep their dict
(= first-seen) order; stable insertion sort computes the same list. -/
def sortByCountDesc : List (Option (List Char) × Nat) →
    List (Option (List Char) × Nat)
  | [] => []
  | x :: xs => insertDesc x (sortByCountDesc xs)

/-- `view_statistics` sub-dictionary (the two `formatted_*` presentation
strings are omitted). -/
structure ViewStatistics where
  total_views : Int
  average_views : Int
  max_views : Int
  min_views : Int
deriving DecidableEq

/-- The summary report (presentation-only fields — `success_rate` and the
formatted view strings — are omitted; `date_range` is inlined). -/
structure SummaryReport where
  total_videos_processed : Nat
  successful_extractions : Nat
  failed_extractions : Nat
  view_statistics : ViewStatistics
  extraction_methods : List (Option (List Char) × Nat)
  top_channels : List (Option (List Char) × Nat)
  earliest : Option (List Char)
  latest : Option (List Char)
  total_videos_with_dates : Nat
deriving DecidableEq

/-- `create_summary_report`.  Empty input returns the `{"error": ...}` dict,
modelled as `none`.  `int(total_views / len(view_counts))` truncates toward
zero, which is `Int.tdiv` (the float division is exact in every case the
claims touch). -/
def create_summary_report (video_data_list : List VDict) :
    Option SummaryReport :=
  match video_data_list with
  | [] => none
  | v0 :: vs =>
    let l := v0 :: vs
    let acc := l.foldl summary_step ⟨0, [], [], [], []⟩
    let avg : Int :=
      if acc.view_counts.length = 0 then 0
      else Int.tdiv acc.total_views acc.view_counts.length
    let successful := (l.filter (fun v => !optTruthy v.error)).length
    some
      { total_videos_processed := l.length
        successful_extractions := successful
        failed_extractions := l.length - successful
        view_statistics :=
          { total_views := acc.total_views
            average_views := avg
            max_views := (pyMax intLt acc.view_counts).getD 0
            min_views := (pyMin intLt acc.view_counts).getD 0 }
        extraction_methods := acc.extraction_methods
        top_channels := (sortByCountDesc acc.channels).take 10
        earliest := pyMin lexLt acc.dates
        latest := pyMax lexLt acc.dates
        total_videos_with_dates := acc.dates.length }

/-! ## CSV export (`export_to_csv`) -/

/-- The fixed CSV column order. -/
def csv_fieldnames : List (List Char) :=
  [("title").data, ("channel_name").data, ("views").data,
    ("publication_date").data, ("description").data,
    ("extraction_method").data]

/-- `value.replace("\n", " ").replace("\r", " ")`. -/
def csvClean (s : List Char) : List Char :=
  s.map fun c => if c = '\n' ∨ c = '\r' then ' ' else c

/-- Rendering of a string-valued field: `None` (or a missing key) becomes the
empty string, a string is newline-cleaned. -/
def csvCell (v : Option (List Char)) : List Char :=
  match v with
  | none => []
  | some s => csvClean s

/-- Rendering of the integer `views` field: `None` becomes the empty string,
an int is rendered by `str(value)`. -/
def csvCellInt (v : Option Int) : List Char :=
  match v with
  | none => []
  | some n => (toString n).data

/-- The row written for one record, in the fixed column order. -/
def csv_row (video : VDict) : List (List Char) :=
  [csvCell video.title, csvCell video.channel_name, csvCellInt video.views,
    csvCell video.publication_date, csvCell video.description,
    csvCell video.extraction_method]

/-- All rows written to the file on success: header first, then one row per
record in order. -/
def csv_rows (video_data : List VDict) : List (List (List Char)) :=
  csv_fieldnames :: video_data.map csv_row

/-- `export_to_csv`'s boolean outcome.  `write_ok` abstracts the file-system
write: any exception while opening/writing is caught and reported as
`false`.  Empty input is rejected up front with `false`. -/
def export_to_csv (video_data : List VDict) (write_ok : Bool) : Bool :=
  if video_data.isEmpty then false else write_ok

/-! ## Characterizations used in theorem statements

These re-express, via `filter`/`filterMap`, which records the statistics
loop of `create_summary_report` draws from; the theorems below prove that
the loop agrees with them. -/

/-- The records the loop does not `continue` past: those with a falsy
`error` value. -/
def nonError (l : List VDict) : List VDict :=
  l.filter fun v => !optTruthy v.error

/-- The view-count contribution of one record: its views when truthy
(present and nonzero), else nothing. -/
def tViews (v : VDict) : List Int :=
  match v.views with
  | some n => if n ≠ 0 then [n] else []
  | none => []

/-- The date contribution of one record: its publication date when truthy
(present and nonempty), else nothing. -/
def tDates (v : VDict) : List (List Char) :=
  match v.publication_date with
  | some d => if d = [] then [] else [d]
  | none => []

/-- The view counts entering `view_counts`: truthy views of non-error
records, in input order. -/
def truthyViewsList (l : List VDict) : List Int :=
  ((nonError l).map tViews).flatten

/-- The collected publication dates: truthy dates of non-error records, in
input order. -/
def datesList (l : List VDict) : List (List Char) :=
  ((nonError l).map tDates).flatten

/-- The channel key of each non-error record, in input order. -/
def channelKeys (l : List VDict) : List (Option (List Char)) :=
  (nonError l).map fun v => v.channel_name

/-- The method key of each non-error record, in input order. -/
def methodKeys (l : List VDict) : List (Option (List Char)) :=
  (nonError l).map fun v => v.extraction_method

/-! ## Order bookkeeping for the first-seen tie-break -/

/-- Keys of a counter association list, in insertion order. -/
def mapKeys {α : Type} (m : List (α × Nat)) : List α := m.map Prod.fst

/-- Total count recorded for `k` (with distinct keys: the looked-up value;
0 when absent). -/
def cnt {α : Type} [DecidableEq α] (m : List (α × Nat)) (k : α) : Nat :=
  ((m.filter fun p => decide (p.1 = k)).map Prod.snd).sum

/-- The key order produced by folding `bump` from a dict whose key list is
`seen`: each new key is appended at its first occurrence. -/
def keysAfter {α : Type} [DecidableEq α] (seen : List α) : List α → List α
  | [] => seen
  | k :: rest =>
    if k ∈ seen then keysAfter seen rest else keysAfter (seen ++ [k]) rest

/-- `a` occurs strictly before `b` somewhere in the list. -/
inductive Precedes {α : Type} (a b : α) : List α → Prop where
  | here {xs : List α} (hb : b ∈ xs) : Precedes a b (a :: xs)
  | there {x : α} {xs : List α} (h : Precedes a b xs) : Precedes a b (x :: xs)

/-- The first occurrence of `a` comes strictly before the first occurrence
of `b`: scanning from the left we meet `a` (and not `b`) first. -/
def firstBefore {α : Type} (a b : α) : List α → Prop
  | [] => False
  | x :: xs => (x = a ∧ a ≠ b) ∨ (x ≠ a ∧ x ≠ b ∧ firstBefore a b xs)

/-! ## Concrete fixtures for witnesses and counterexamples -/

/-- A world in which every backend fails every time. -/
def wAllNone : World := ⟨fun _ _ => none, fun _ _ => none, fun _ _ => none⟩

/-- A record as the official-API adapter would normalize it. -/
def recW : VideoRecord :=
  ⟨some (("t").data), none, some (("c").data), none, some 7,
    some (("youtube_api").data)⟩

/-- A world in which the official API fails on attempt 0 and succeeds on
attempt 1. -/
def wSecondTry : World :=
  ⟨fun _ n => if n = 1 then some recW else none, fun _ _ => none,
    fun _ _ => none⟩

/-- Extractor state: default strategy `auto`, 3 retries, backoff 2, no
backend available at all. -/
def eAuto : Extractor := ⟨("auto").data, 3, 2, false, false, false⟩

/-- Extractor state: default strategy `auto`, 3 retries, backoff 2, only the
official-API service handle present. -/
def eApiOnly : Extractor := ⟨("auto").data, 3, 2, true, false, false⟩

/-- A valid 11-character identifier. -/
def goodId : List Char := ("jNQXAC9IVRw").data

/-- A non-error record with the given views, channel and date. -/
def mkRec (views : Option Int) (channel : List Char)
    (date : Option (List Char)) : VDict :=
  ⟨some (("t").data), some channel, views, date, none,
    some (("yt_dlp").data), none⟩

/-- Batch-result fixture for the view-truthiness counterexample: one record
with a present view count of 0, one with 10. -/
def cexViewsList : List VDict :=
  [mkRec (some 0) (("A").data) (some (("2020-01-01").data)),
    mkRec (some 10) (("B").data) (some (("2019-05-05").data))]

/-- Record fixture for the CSV witness: description with an embedded
newline, null views. -/
def vCsv : VDict :=
  ⟨some (("a title").data), none, none, none,
    some (('a' :: '\n' :: 'b' :: [])), some (("yt_dlp").data), none⟩

/-! # Theorems -/

/-! ## Retry-loop lemmas -/

theorem retry_go_cons_none (e : Extractor) (w : World) (id strat : List Char)
    (a : Nat) (rest : List Nat) (hrest : rest ≠ [])
    (hd : dispatch_strategy e w id strat a = some none) :
    retry_go e w id strat (a :: rest) =
      ⟨(retry_go e w id strat rest).result,
        (retry_go e w id strat rest).attempts + 1,
        e.backoff_factor ^ a :: (retry_go e w id strat rest).delays⟩ := by
  cases rest with
  | nil => exact absurd rfl hrest
  | cons r1 rs => simp [retry_go, hd]

theorem retry_go_all_none (e : Extractor) (w : World) (id strat : List Char)
    (l : List Nat)
    (h : ∀ i ∈ l, dispatch_strategy e w id strat i = some none) :
    retry_go e w id strat l =
      ⟨none, l.length, l.dropLast.map fun i => e.backoff_factor ^ i⟩ := by
  induction l with
  | nil => rfl
  | cons a rest ih =>
    cases rest with
    | nil => simp [retry_go, h a (by simp)]
    | cons r1 rs =>
      rw [retry_go_cons_none e w id strat a (r1 :: rs) (by simp)
        (h a (by simp))]
      rw [ih fun i hi => h i (List.mem_cons_of_mem a hi)]
      simp

theorem retry_go_first_success (e : Extractor) (w : World)
    (id strat : List Char) (l1 : List Nat) (j : Nat) (l2 : List Nat)
    (r : VideoRecord)
    (h1 : ∀ i ∈ l1, dispatch_strategy e w id strat i = some none)
    (h2 : dispatch_strategy e w id strat j = some (some r)) :
    retry_go e w id strat (l1 ++ j :: l2) =
      ⟨some r, l1.length + 1, l1.map fun i => e.backoff_factor ^ i⟩ := by
  induction l1 with
  | nil => simp [retry_go, h2]
  | cons a rest ih =>
    rw [List.cons_append,
      retry_go_cons_none e w id strat a (rest ++ j :: l2) (by simp)
        (h1 a (by simp)),
      ih fun i hi => h1 i (List.mem_cons_of_mem a hi)]
    simp [Nat.add_comm]

theorem dropLast_range (n : Nat) : (List.range n).dropLast = List.range (n - 1) := by
  cases n with
  | zero => rfl
  | succ m => rw [List.range_succ, List.dropLast_concat]; simp

/-! ## C1 -/

/-- C1: refuted by the code.  The claim says every supported URL form
(watch-page query, short link, embed path) yields the embedded canonical
identifier; the shipped `_validate_video_id` — the only identifier check in
the extractor, used by `get_video_info` and `batch_extract` — returns `None`
for each of those forms and accepts only the bare 11-character identifier.
(The repository's tests exercise URL extraction through an
`_extract_video_id` method that does not exist in the shipped module.) -/
theorem validator_rejects_url_forms :
    validate_video_id (("https://www.youtube.com/watch?v=jNQXAC9IVRw").data) =
      none ∧
    validate_video_id (("https://youtu.be/jNQXAC9IVRw").data) = none ∧
    validate_video_id (("https://www.youtube.com/embed/jNQXAC9IVRw").data) =
      none ∧
    validate_video_id goodId = some goodId := by
  refine ⟨?_, ?_, ?_, ?_⟩ <;> decide

/-! ## C2 -/

/-- C2: with `maxRetries = 3` and `backoffFactor = 2`, an adapter that
returns null on every attempt is invoked exactly 3 times, exactly the two
backoff delays 1 and 2 (`backoffFactor ^ i` before retry `i`) are slept and
the result is null; and in general the first non-null adapter result is
returned immediately, after `j` failed attempts having slept exactly the
delays `backoffFactor ^ 0, ..., backoffFactor ^ (j-1)`. -/
theorem retry_controller_budget_and_first_success :
    (∀ (e : Extractor) (w : World) (video_id strat : List Char),
      e.max_retries = 3 → e.backoff_factor = 2 →
      (∀ n, dispatch_strategy e w video_id strat n = some none) →
      extract_with_retry e w video_id strat = ⟨none, 3, [1, 2]⟩) ∧
    (∀ (e : Extractor) (w : World) (video_id strat : List Char) (j : Nat)
      (r : VideoRecord), j < e.max_retries →
      (∀ i, i < j → dispatch_strategy e w video_id strat i = some none) →
      dispatch_strategy e w video_id strat j = some (some r) →
      extract_with_retry e w video_id strat =
        ⟨some r, j + 1, (List.range j).map fun i => e.backoff_factor ^ i⟩) := by
  constructor
  · intro e w video_id strat hm hb h
    rw [extract_with_retry, hm, retry_go_all_none e w video_id strat _
      (fun i _ => h i)]
    rw [show List.range 3 = [0, 1, 2] from rfl]
    simp [hb]
  · intro e w video_id strat j r hj h1 h2
    obtain ⟨k, hk⟩ := Nat.exists_eq_add_of_lt hj
    have hk2 : e.max_retries = j + (k + 1) := by omega
    rw [extract_with_retry, hk2, List.range_add, List.range_succ_eq_map,
      List.map_cons, Nat.add_zero]
    rw [retry_go_first_success e w video_id strat (List.range j) j _ r
      (fun i hi => h1 i (List.mem_range.mp hi)) h2]
    simp

/-- Witness for C2: the always-failing world consumes the full budget with
delays 1 and 2; a world succeeding on attempt 1 returns that record after 2
attempts and one unit delay. -/
theorem retry_controller_budget_and_first_success_witness :
    extract_with_retry eApiOnly wAllNone goodId (("api").data) =
      ⟨none, 3, [1, 2]⟩ ∧
    extract_with_retry eApiOnly wSecondTry goodId (("api").data) =
      ⟨some recW, 2, [1]⟩ := by
  constructor
  · exact retry_controller_budget_and_first_success.1 eApiOnly wAllNone
      goodId (("api").data) rfl rfl (fun n => rfl)
  · have h := retry_controller_budget_and_first_success.2 eApiOnly wSecondTry
      goodId (("api").data) 1 recW (by decide)
      (fun i hi => by
        have h0 : i = 0 := by omega
        subst h0; rfl) rfl
    simpa [eApiOnly] using h

/-! ## C4 -/

/-- C4: with effective strategy `auto` and no adapter available (no service
handle, neither library importable), `get_video_info` on a valid identifier
returns null with zero adapter invocations and zero backoff delays. -/
theorem auto_no_adapters_returns_null (e : Extractor) (w : World)
    (video_input video_id : List Char)
    (hstrat : e.strategy = ("auto").data) (hapi : e.youtube_service = false)
    (hyt : e.yt_dlp_available = false) (hpt : e.pytubefix_available = false)
    (hvalid : validate_video_id video_input = some video_id) :
    get_video_info e w video_input none = ⟨none, 0, []⟩ := by
  simp [get_video_info, hvalid, effective_strategy, hstrat,
    auto_strategy_list, hapi, hyt, hpt, try_strategies]

/-- Witness for C4. -/
theorem auto_no_adapters_returns_null_witness :
    get_video_info eAuto wAllNone goodId none = ⟨none, 0, []⟩ :=
  auto_no_adapters_returns_null eAuto wAllNone goodId goodId rfl rfl rfl rfl
    rfl

/-! ## C10 -/

/-- C10: a per-call override naming an adapter whose backing dependency is
absent is not validated and does not fall back: each attempt returns null
inside the retry loop, the full budget of `max_retries` attempts with its
`max_retries - 1` backoff delays is consumed, and the result is null. -/
theorem override_unavailable_consumes_budget (e : Extractor) (w : World)
    (video_input video_id strat : List Char)
    (hvalid : validate_video_id video_input = some video_id)
    (hcase : (strat = ("api").data ∧ e.youtube_service = false) ∨
      (strat = ("yt_dlp").data ∧ e.yt_dlp_available = false) ∨
      (strat = ("pytubefix").data ∧ e.pytubefix_available = false)) :
    get_video_info e w video_input (some strat) =
      ⟨none, e.max_retries,
        (List.range (e.max_retries - 1)).map fun i => e.backoff_factor ^ i⟩ := by
  have hd : ∀ n, dispatch_strategy e w video_id strat n = some none := by
    rcases hcase with ⟨hs, ha⟩ | ⟨hs, ha⟩ | ⟨hs, ha⟩ <;> subst hs <;>
      intro n <;>
      simp +decide [dispatch_strategy, get_video_info_api,
        get_video_info_yt_dlp, get_video_info_pytubefix, ha]
  have hne : strat ≠ [] ∧ strat ≠ ("auto").data := by
    rcases hcase with ⟨hs, _⟩ | ⟨hs, _⟩ | ⟨hs, _⟩ <;> subst hs <;>
      exact ⟨by decide, by decide⟩
  simp only [get_video_info, hvalid, effective_strategy]
  rw [if_neg hne.1, if_neg hne.2, extract_with_retry,
    retry_go_all_none e w video_id strat _ (fun i _ => hd i), dropLast_range]
  simp

/-- Witness for C10: override `api` with no service handle, in a world whose
API oracle would even succeed on retry — the adapter still yields null every
time, 3 attempts and delays 1, 2 are consumed, result is null. -/
theorem override_unavailable_consumes_budget_witness :
    get_video_info eAuto wSecondTry goodId (some (("api").data)) =
      ⟨none, 3, [1, 2]⟩ := by
  have h := override_unavailable_consumes_budget eAuto wSecondTry goodId
    goodId (("api").data) rfl (Or.inl ⟨rfl, rfl⟩)
  simpa [eAuto] using h

/-! ## C3 -/

/-- C3 counterexample: constructing with default strategy `"api"` while the
official-API dependency is absent (no client library, no key, no service
handle) does not raise — construction succeeds, keeping strategy `"api"`.
This refutes the claim that a named strategy with an absent backing
dependency always fails construction. -/
theorem init_api_missing_dependency_cex :
    YouTubeVideoInfoExtractor.init none none (("api").data) 3 2 false false
      false false = .ok ⟨("api").data, 3, 2, false, false, false⟩ := rfl

/-- C3 (amended): construction fails exactly when the lowercased strategy is
not one of `auto`/`api`/`yt_dlp`/`pytubefix`, or is `yt_dlp`/`pytubefix`
with the library absent; strategy `api` is never availability-checked at
construction (a missing service surfaces only at extraction time as null),
and a valid configuration is stored as given (never degraded to `auto`). -/
theorem init_validation_characterization
    (api_key env_key : Option (List Char)) (strategy : List Char)
    (mr : Nat) (bf : ℚ) (ga yd pt bo : Bool) :
    ((YouTubeVideoInfoExtractor.init api_key env_key strategy mr bf ga yd pt
        bo).isOk = true ↔
      ((pyLower strategy = ("auto").data ∨ pyLower strategy = ("api").data ∨
        pyLower strategy = ("yt_dlp").data ∨
        pyLower strategy = ("pytubefix").data) ∧
       (pyLower strategy = ("yt_dlp").data → yd = true) ∧
       (pyLower strategy = ("pytubefix").data → pt = true))) ∧
    (pyLower strategy = ("api").data →
      YouTubeVideoInfoExtractor.init api_key env_key strategy mr bf ga yd pt
        bo = .ok ⟨("api").data, mr, bf,
          ga && optTruthy (pyOrStr api_key env_key) && bo, yd, pt⟩) := by
  constructor
  · unfold YouTubeVideoInfoExtractor.init
    dsimp only
    split_ifs with h1 h2 h3
    · constructor
      · intro h; simp [Except.isOk, Except.toBool] at h
      · intro ⟨hv, _, _⟩; exact absurd hv (by tauto)
    · constructor
      · intro h; simp [Except.isOk, Except.toBool] at h
      · intro ⟨_, hyd, _⟩
        exact absurd (hyd h2.1) (by simp [h2.2])
    · constructor
      · intro h; simp [Except.isOk, Except.toBool] at h
      · intro ⟨_, _, hpt⟩
        exact absurd (hpt h3.1) (by simp [h3.2])
    · constructor
      · intro _
        refine ⟨by tauto, fun hy => ?_, fun hp => ?_⟩
        · cases yd with
          | false => exact absurd ⟨hy, rfl⟩ h2
          | true => rfl
        · cases pt with
          | false => exact absurd ⟨hp, rfl⟩ h3
          | true => rfl
      · intro _
        simp [Except.isOk, Except.toBool]
  · intro hapi
    unfold YouTubeVideoInfoExtractor.init
    dsimp only
    rw [hapi]
    rw [if_neg (fun hc => hc.2.1 rfl),
      if_neg (fun hc => absurd hc.1 (by decide)),
      if_neg (fun hc => absurd hc.1 (by decide))]

/-- Witness for C3's amended theorem: strategy `"API"` (exercising the
lowercasing) with an available client library but no key — construction
succeeds with no service handle. -/
theorem init_validation_characterization_witness :
    YouTubeVideoInfoExtractor.init none none (("API").data) 3 2 true false
      false true = .ok ⟨("api").data, 3, 2, false, false, false⟩ := by
  have h := (init_validation_characterization none none (("API").data) 3 2
    true false false true).2 (by decide)
  simpa using h

/-! ## C5 -/

/-- C5 counterexample: for a raw input that fails validation, the failure
sentinel carries `None` as identifier — not the raw input string, as the
claim states. -/
theorem batch_failure_raw_input_cex :
    batch_extract eAuto wAllNone [("invalid").data] none =
      [.failure none (("Extraction failed").data) none] ∧
    BatchItem.failure none (("Extraction failed").data) none ≠
      BatchItem.failure (some (("invalid").data)) (("Extraction failed").data)
        none := by
  exact ⟨by decide, by decide⟩

/-- C5 (amended): for each identifier (in input order) whose extraction
fails, `batch_extract` appends a failure sentinel carrying the re-validated
identifier — which is the identifier itself when valid, and `None` (not the
raw input) when validation failed — with the fixed message
`"Extraction failed"` and a null `extraction_method`. -/
theorem batch_failure_carries_validated_id (e : Extractor) (w : World)
    (inputs : List (List Char)) (strategy : Option (List Char)) (i : Nat)
    (inp : List Char) (hin : inputs[i]? = some inp)
    (hfail : (get_video_info e w inp strategy).result = none) :
    (batch_extract e w inputs strategy)[i]? =
      some (.failure (validate_video_id inp) (("Extraction failed").data)
        none) ∧
    (validate_video_id inp = some inp ∨ validate_video_id inp = none) := by
  constructor
  · simp [batch_extract, List.getElem?_map, hin, hfail]
  · unfold validate_video_id
    split_ifs <;> simp

/-- Witness for C5's amended theorem. -/
theorem batch_failure_carries_validated_id_witness :
    (batch_extract eAuto wAllNone [("invalid").data] none)[0]? =
      some (.failure (validate_video_id (("invalid").data))
        (("Extraction failed").data) none) ∧
    (validate_video_id (("invalid").data) = some (("invalid").data) ∨
      validate_video_id (("invalid").data) = none) :=
  batch_failure_carries_validated_id eAuto wAllNone [("invalid").data] none 0
    (("invalid").data) rfl rfl

/-! ## C6 -/

/-- C6: the batch result has exactly the input's length, an empty input
yields an empty result, and the `i`-th element corresponds to the `i`-th
input: a record equal to the orchestrator's successful result, or the
failure sentinel when the orchestrator returned null — failures never shrink
or reorder the list. -/
theorem batch_result_order_and_length (e : Extractor) (w : World)
    (inputs : List (List Char)) (strategy : Option (List Char)) :
    (batch_extract e w inputs strategy).length = inputs.length ∧
    (inputs = [] → batch_extract e w inputs strategy = []) ∧
    (∀ (i : Nat) (inp : List Char), inputs[i]? = some inp →
      ((∃ r, (batch_extract e w inputs strategy)[i]? =
            some (BatchItem.record r) ∧
          (get_video_info e w inp strategy).result = some r) ∨
        ((batch_extract e w inputs strategy)[i]? =
            some (BatchItem.failure (validate_video_id inp)
              (("Extraction failed").data) none) ∧
          (get_video_info e w inp strategy).result = none))) := by
  refine ⟨by simp [batch_extract], fun h => by simp [batch_extract, h],
    fun i inp hin => ?_⟩
  cases hres : (get_video_info e w inp strategy).result with
  | none =>
    exact Or.inr ⟨by simp [batch_extract, List.getElem?_map, hin, hres], rfl⟩
  | some r =>
    exact Or.inl ⟨r, by simp [batch_extract, List.getElem?_map, hin, hres],
      rfl⟩

/-- Witness for C6: a two-element batch (one valid id that fails extraction,
one invalid input) keeps length 2 and order. -/
theorem batch_result_order_and_length_witness :
    (batch_extract eAuto wAllNone [goodId, ("invalid").data] none).length =
      2 ∧
    (batch_extract eAuto wAllNone [goodId, ("invalid").data] none)[1]? =
      some (.failure (validate_video_id (("invalid").data))
        (("Extraction failed").data) none) := by
  have h := batch_result_order_and_length eAuto wAllNone
    [goodId, ("invalid").data] none
  refine ⟨by simpa using h.1, ?_⟩
  rcases h.2.2 1 (("invalid").data) rfl with ⟨r, _, hres⟩ | ⟨heq, _⟩
  · rw [show (get_video_info eAuto wAllNone (("invalid").data) none).result =
      none from rfl] at hres
    exact absurd hres (by simp)
  · exact heq

/-! ## Whitespace-collapse lemmas for C8 -/

theorem collapseWsGo_eq_self (s : List Char)
    (hs : ∀ c ∈ s, isPySpace c = false) : ∀ b, collapseWsGo b s = s := by
  induction s with
  | nil => intro b; rfl
  | cons a t ih =>
    intro b
    have ha := hs a (by simp)
    simp only [collapseWsGo, ha, Bool.false_eq_true, if_false]
    exact congrArg (a :: ·) (ih (fun c hc => hs c (by simp [hc])) false)

theorem dropWhile_eq_self_of_forall (p : Char → Bool) (s : List Char)
    (hs : ∀ c ∈ s, p c = false) : s.dropWhile p = s := by
  cases s with
  | nil => rfl
  | cons a t => simp [List.dropWhile_cons, hs a (by simp)]

theorem pyStrip_eq_self (s : List Char)
    (hs : ∀ c ∈ s, isPySpace c = false) : pyStrip s = s := by
  unfold pyStrip
  rw [dropWhile_eq_self_of_forall _ s hs,
    dropWhile_eq_self_of_forall _ s.reverse
      (fun c hc => hs c (List.mem_reverse.mp hc)),
    List.reverse_reverse]

theorem collapseWsGo_true_head (s : List Char) :
    ∀ c, (collapseWsGo true s).head? = some c → isPySpace c = false := by
  induction s with
  | nil => intro c h; simp [collapseWsGo] at h
  | cons a t ih =>
    intro c h
    cases ha : isPySpace a with
    | true =>
      rw [show collapseWsGo true (a :: t) = collapseWsGo true t by
        simp [collapseWsGo, ha]] at h
      exact ih c h
    | false =>
      rw [show collapseWsGo true (a :: t) = a :: collapseWsGo false t by
        simp [collapseWsGo, ha]] at h
      simp only [List.head?_cons, Option.some_inj] at h
      rw [← h]; exact ha

theorem collapseWsGo_chain (s : List Char) :
    ∀ b, List.Chain'
      (fun x y => ¬(isPySpace x = true ∧ isPySpace y = true))
      (collapseWsGo b s) := by
  induction s with
  | nil => intro b; simp [collapseWsGo]
  | cons a t ih =>
    intro b
    cases ha : isPySpace a with
    | true =>
      cases b with
      | true =>
        rw [show collapseWsGo true (a :: t) = collapseWsGo true t by
          simp [collapseWsGo, ha]]
        exact ih true
      | false =>
        rw [show collapseWsGo false (a :: t) = ' ' :: collapseWsGo true t by
          simp [collapseWsGo, ha]]
        rw [List.chain'_cons']
        refine ⟨fun y hy => ?_, ih true⟩
        intro hc
        exact absurd hc.2
          (by simp [collapseWsGo_true_head t y (Option.mem_def.mp hy)])
    | false =>
      rw [show collapseWsGo b (a :: t) = a :: collapseWsGo false t by
        simp [collapseWsGo, ha]]
      rw [List.chain'_cons']
      exact ⟨fun y _ hc => absurd hc.1 (by simp [ha]), ih false⟩

/-! ## C8 -/

/-- C8: `clean_description` yields the fixed placeholder on null and on
empty input; a 600-character whitespace-free input with the default
500-character limit yields its first 500 characters followed by the
3-character ellipsis marker; every whitespace run (newlines included) is
collapsed — the output never contains two adjacent whitespace characters —
and a concrete multi-newline input collapses to single-space-separated
text. -/
theorem clean_description_behavior :
    clean_description none 500 = noDescriptionPlaceholder ∧
    clean_description (some []) 500 = noDescriptionPlaceholder ∧
    (∀ s : List Char, s.length = 600 → (∀ c ∈ s, isPySpace c = false) →
      clean_description (some s) 500 =
        s.take 500 ++ ('.' :: '.' :: '.' :: [])) ∧
    (∀ s : List Char,
      List.Chain' (fun x y => ¬(isPySpace x = true ∧ isPySpace y = true))
        (collapseWs s)) ∧
    clean_description (some (("Line1\n\n\nLine2\n\nLine3").data)) 500 =
      ("Line1 Line2 Line3").data := by
  refine ⟨rfl, rfl, ?_, fun s => collapseWsGo_chain s false, by decide⟩
  intro s h600 hnws
  have hne : s ≠ [] := by
    intro h; rw [h] at h600; simp at h600
  have hcoll : collapseWs (pyStrip s) = s := by
    rw [pyStrip_eq_self s hnws]
    exact collapseWsGo_eq_self s hnws false
  simp only [clean_description]
  rw [if_neg hne]
  rw [hcoll, h600, if_pos (by norm_num)]
  rw [pyStrip_eq_self (s.take 500)
    (fun c hc => hnws c (List.mem_of_mem_take hc))]

/-- Witness for C8's 600-character clause. -/
theorem clean_description_behavior_witness :
    clean_description (some (List.replicate 600 'a')) 500 =
      (List.replicate 600 'a').take 500 ++ ('.' :: '.' :: '.' :: []) :=
  clean_description_behavior.2.2.1 (List.replicate 600 'a')
    (by rw [List.length_replicate])
    (fun c hc => by rw [List.eq_of_mem_replicate hc]; rfl)

/-! ## C9 -/

/-- C9: the CSV export writes the fixed column order
`title, channel_name, views, publication_date, description,
extraction_method`; the output has one row per record after the header, in
order; null values render as the empty string; newline characters in text
fields are replaced by spaces (so no rendered text field contains `\n` or
`\r`, and every surviving character comes from the value or is a space);
and the export reports a boolean — false exactly when the write fails (or
the input is empty), never an exception. -/
theorem csv_export_shape (video_data : List VDict) (write_ok : Bool) :
    (export_to_csv video_data write_ok = true ↔
      video_data ≠ [] ∧ write_ok = true) ∧
    (csv_rows video_data).head? = some [("title").data,
      ("channel_name").data, ("views").data, ("publication_date").data,
      ("description").data, ("extraction_method").data] ∧
    (csv_rows video_data).length = video_data.length + 1 ∧
    (∀ (i : Nat) (v : VDict), video_data[i]? = some v →
      (csv_rows video_data)[i + 1]? = some (csv_row v)) ∧
    (∀ v : VDict, v.views = none →
      csv_row v = [csvCell v.title, csvCell v.channel_name, [],
        csvCell v.publication_date, csvCell v.description,
        csvCell v.extraction_method]) ∧
    (∀ o : Option (List Char), o = none → csvCell o = []) ∧
    (∀ s : List Char, '\n' ∉ csvClean s ∧ '\r' ∉ csvClean s) ∧
    (∀ (s : List Char) (c : Char), c ∈ csvClean s → c ∈ s ∨ c = ' ') := by
  refine ⟨?_, rfl, by simp [csv_rows], ?_, ?_, ?_, ?_, ?_⟩
  · cases video_data with
    | nil => simp [export_to_csv]
    | cons v t => simp [export_to_csv]
  · intro i v hin
    simp [csv_rows, List.getElem?_cons_succ, List.getElem?_map, hin]
  · intro v hv
    simp [csv_row, csvCellInt, hv]
  · intro o ho
    rw [ho]; rfl
  · intro s
    constructor <;> intro hmem <;>
      · simp only [csvClean, List.mem_map] at hmem
        obtain ⟨c, _, hc⟩ := hmem
        split_ifs at hc with h
        · exact absurd hc (by decide)
        · rw [hc] at h
          exact h (by simp)
  · intro s c hc
    simp only [csvClean, List.mem_map] at hc
    obtain ⟨x, hx, he⟩ := hc
    split_ifs at he with h
    · exact Or.inr he.symm
    · exact Or.inl (he ▸ hx)

/-- Witness for C9. -/
theorem csv_export_shape_witness :
    export_to_csv [vCsv] false = false ∧
    (csv_rows [vCsv])[1]? = some (csv_row vCsv) ∧
    '\n' ∉ csvClean ('a' :: '\n' :: 'b' :: []) := by
  have h := csv_export_shape [vCsv] false
  refine ⟨?_, h.2.2.2.1 0 vCsv rfl,
    (h.2.2.2.2.2.2.1 ('a' :: '\n' :: 'b' :: [])).1⟩
  cases hexp : export_to_csv [vCsv] false with
  | false => rfl
  | true => exact absurd (h.1.mp hexp).2 (by simp)

/-! ## Summary-loop characterization (C7) -/

theorem summary_step_error (acc : SummaryAcc) (v : VDict)
    (he : optTruthy v.error = true) : summary_step acc v = acc := by
  unfold summary_step
  rw [if_pos he]

theorem summary_step_nonerror (acc : SummaryAcc) (v : VDict)
    (he : optTruthy v.error = false) :
    summary_step acc v =
      ⟨acc.total_views + (tViews v).sum, acc.view_counts ++ tViews v,
        bump acc.extraction_methods v.extraction_method,
        bump acc.channels v.channel_name, acc.dates ++ tDates v⟩ := by
  unfold summary_step
  rw [if_neg (by simp [he])]
  cases hv : v.views with
  | none =>
    cases hd : v.publication_date with
    | none => simp [tViews, tDates, hv, hd]
    | some d => by_cases hdd : d = [] <;> simp [tViews, tDates, hv, hd, hdd]
  | some n =>
    by_cases hn : n = 0
    · cases hd : v.publication_date with
      | none => simp [tViews, tDates, hv, hd, hn]
      | some d =>
        by_cases hdd : d = [] <;> simp [tViews, tDates, hv, hd, hdd, hn]
    · cases hd : v.publication_date with
      | none => simp [tViews, tDates, hv, hd, hn]
      | some d =>
        by_cases hdd : d = [] <;> simp [tViews, tDates, hv, hd, hdd, hn]

theorem summary_foldl_char (l : List VDict) : ∀ acc : SummaryAcc,
    l.foldl summary_step acc =
      ⟨acc.total_views + (truthyViewsList l).sum,
        acc.view_counts ++ truthyViewsList l,
        (methodKeys l).foldl bump acc.extraction_methods,
        (channelKeys l).foldl bump acc.channels,
        acc.dates ++ datesList l⟩ := by
  induction l with
  | nil =>
    intro acc
    cases acc
    simp [truthyViewsList, datesList, methodKeys, channelKeys, nonError]
  | cons v t ih =>
    intro acc
    rw [List.foldl_cons]
    cases he : optTruthy v.error with
    | true =>
      rw [summary_step_error acc v he, ih acc]
      have hno : nonError (v :: t) = nonError t := by
        simp [nonError, List.filter_cons, he]
      simp [truthyViewsList, datesList, methodKeys, channelKeys, hno]
    | false =>
      rw [summary_step_nonerror acc v he, ih _]
      have hno : nonError (v :: t) = v :: nonError t := by
        simp [nonError, List.filter_cons, he]
      simp [truthyViewsList, datesList, methodKeys, channelKeys, hno,
        add_assoc, List.append_assoc]

theorem create_summary_report_eq (l : List VDict) (hl : l ≠ []) :
    create_summary_report l = some
      { total_videos_processed := l.length
        successful_extractions := (nonError l).length
        failed_extractions := l.length - (nonError l).length
        view_statistics :=
          { total_views := (truthyViewsList l).sum
            average_views :=
              if (truthyViewsList l).length = 0 then 0
              else Int.tdiv (truthyViewsList l).sum
                (truthyViewsList l).length
            max_views := (pyMax intLt (truthyViewsList l)).getD 0
            min_views := (pyMin intLt (truthyViewsList l)).getD 0 }
        extraction_methods := (methodKeys l).foldl bump []
        top_channels :=
          (sortByCountDesc ((channelKeys l).foldl bump [])).take 10
        earliest := pyMin lexLt (datesList l)
        latest := pyMax lexLt (datesList l)
        total_videos_with_dates := (datesList l).length } := by
  cases l with
  | nil => exact absurd rfl hl
  | cons v t =>
    unfold create_summary_report
    dsimp only
    rw [summary_foldl_char (v :: t) ⟨0, [], [], [], []⟩]
    simp [nonError]

/-! ## `min`/`max` fold correctness (C7) -/

theorem pyFoldMin_spec {α : Type} (lt : α → α → Bool)
    (htrans : ∀ a b c, lt a b = true → lt b c = true → lt a c = true)
    (hirr : ∀ a, lt a a = false)
    (htot : ∀ a b, lt a b = true ∨ lt b a = true ∨ a = b) :
    ∀ (xs : List α) (cur : α),
      (xs.foldl (fun m y => if lt y m then y else m) cur) ∈ cur :: xs ∧
      ∀ y ∈ cur :: xs,
        lt y (xs.foldl (fun m y => if lt y m then y else m) cur) = false := by
  intro xs
  induction xs with
  | nil =>
    intro cur
    refine ⟨by simp, fun y hy => ?_⟩
    simp only [List.foldl_nil]
    simp only [List.mem_singleton] at hy
    rw [hy]; exact hirr cur
  | cons a t ih =>
    intro cur
    rw [List.foldl_cons]
    by_cases hla : lt a cur = true
    · rw [if_pos hla]
      obtain ⟨hmem, hmin⟩ := ih a
      refine ⟨by rcases List.mem_cons.mp hmem with h | h <;> simp [h], ?_⟩
      intro y hy
      rcases List.mem_cons.mp hy with hyc | hyt
      · subst hyc
        by_contra hcur
        have hcur2 : lt y (t.foldl (fun m y => if lt y m then y else m) a) =
            true := by
          cases hb : lt y (t.foldl (fun m y => if lt y m then y else m) a)
          · exact absurd hb hcur
          · rfl
        have := htrans a y _ hla hcur2
        rw [hmin a (by simp)] at this
        exact absurd this (by simp)
      · exact hmin y (by simp [hyt])
    · rw [if_neg hla]
      have hla2 : lt a cur = false := by
        cases hb : lt a cur
        · rfl
        · exact absurd hb hla
      obtain ⟨hmem, hmin⟩ := ih cur
      refine ⟨by rcases List.mem_cons.mp hmem with h | h <;> simp [h], ?_⟩
      intro y hy
      rcases List.mem_cons.mp hy with hyc | hyt
      · subst hyc
        exact hmin y (by simp)
      · rcases List.mem_cons.mp hyt with hya | hyt2
        · subst hya
          by_contra hres
          have hres2 : lt y (t.foldl (fun m y => if lt y m then y else m)
              cur) = true := by
            cases hb : lt y (t.foldl (fun m y => if lt y m then y else m) cur)
            · exact absurd hb hres
            · rfl
          rcases htot y cur with h | h | h
          · rw [h] at hla2; exact absurd hla2 (by simp)
          · have := htrans cur y _ h hres2
            rw [hmin cur (by simp)] at this
            exact absurd this (by simp)
          · rw [h] at hres2
            rw [hmin cur (by simp)] at hres2
            exact absurd hres2 (by simp)
        · exact hmin y (by simp [hyt2])

theorem pyMin_spec {α : Type} (lt : α → α → Bool)
    (htrans : ∀ a b c, lt a b = true → lt b c = true → lt a c = true)
    (hirr : ∀ a, lt a a = false)
    (htot : ∀ a b, lt a b = true ∨ lt b a = true ∨ a = b)
    (xs : List α) (m : α) (h : pyMin lt xs = some m) :
    m ∈ xs ∧ ∀ y ∈ xs, lt y m = false := by
  cases xs with
  | nil => simp [pyMin] at h
  | cons x rest =>
    simp only [pyMin, Option.some_inj] at h
    obtain ⟨hmem, hmin⟩ := pyFoldMin_spec lt htrans hirr htot rest x
    rw [h] at hmem hmin
    exact ⟨hmem, hmin⟩

theorem pyMax_spec {α : Type} (lt : α → α → Bool)
    (htrans : ∀ a b c, lt a b = true → lt b c = true → lt a c = true)
    (hirr : ∀ a, lt a a = false)
    (htot : ∀ a b, lt a b = true ∨ lt b a = true ∨ a = b)
    (xs : List α) (m : α) (h : pyMax lt xs = some m) :
    m ∈ xs ∧ ∀ y ∈ xs, lt m y = false := by
  have h2 : pyMin (fun a b => lt b a) xs = some m := h
  exact pyMin_spec (fun a b => lt b a)
    (fun a b c h1 h2 => htrans c b a h2 h1) hirr
    (fun a b => by rcases htot a b with h | h | h <;> tauto) xs m h2

theorem pyMin_isSome {α : Type} (lt : α → α → Bool) (xs : List α)
    (h : xs ≠ []) : ∃ m, pyMin lt xs = some m := by
  cases xs with
  | nil => exact absurd rfl h
  | cons x rest => exact ⟨_, rfl⟩

theorem pyMax_isSome {α : Type} (lt : α → α → Bool) (xs : List α)
    (h : xs ≠ []) : ∃ m, pyMax lt xs = some m := by
  cases xs with
  | nil => exact absurd rfl h
  | cons x rest => exact ⟨_, rfl⟩

/-! ## The two strict comparisons (C7) -/

theorem intLt_trans : ∀ a b c : Int, intLt a b = true → intLt b c = true →
    intLt a c = true := by
  intro a b c h1 h2
  simp only [intLt, decide_eq_true_eq] at h1 h2 ⊢
  omega

theorem intLt_irrefl : ∀ a : Int, intLt a a = false := by
  intro a; simp [intLt]

theorem intLt_total : ∀ a b : Int, intLt a b = true ∨ intLt b a = true ∨
    a = b := by
  intro a b
  simp only [intLt, decide_eq_true_eq]
  omega

theorem lexLt_irrefl : ∀ s : List Char, lexLt s s = false := by
  intro s
  induction s with
  | nil => rfl
  | cons a t ih =>
    simp only [lexLt]
    rw [if_neg (lt_irrefl a), if_neg (lt_irrefl a)]
    exact ih

theorem lexLt_trans : ∀ s t u : List Char, lexLt s t = true →
    lexLt t u = true → lexLt s u = true := by
  intro s
  induction s with
  | nil =>
    intro t u h1 h2
    cases t with
    | nil => simp [lexLt] at h1
    | cons b t' =>
      cases u with
      | nil => simp [lexLt] at h2
      | cons c u' => rfl
  | cons a s' ih =>
    intro t u h1 h2
    cases t with
    | nil => simp [lexLt] at h1
    | cons b t' =>
      cases u with
      | nil => simp [lexLt] at h2
      | cons c u' =>
        simp only [lexLt] at h1 h2 ⊢
        rcases lt_trichotomy a b with hab | hab | hab
        · rcases lt_trichotomy b c with hbc | hbc | hbc
          · rw [if_pos (lt_trans hab hbc)]
          · subst hbc; rw [if_pos hab]
          · rw [if_neg (asymm hbc), if_pos hbc] at h2
            exact absurd h2 (by simp)
        · subst hab
          rw [if_neg (lt_irrefl a), if_neg (lt_irrefl a)] at h1
          rcases lt_trichotomy a c with hac | hac | hac
          · rw [if_pos hac]
          · subst hac
            rw [if_neg (lt_irrefl a), if_neg (lt_irrefl a)] at h2 ⊢
            exact ih t' u' h1 h2
          · rw [if_neg (asymm hac), if_pos hac] at h2
            exact absurd h2 (by simp)
        · rw [if_neg (asymm hab), if_pos hab] at h1
          exact absurd h1 (by simp)

theorem lexLt_total : ∀ s t : List Char, lexLt s t = true ∨
    lexLt t s = true ∨ s = t := by
  intro s
  induction s with
  | nil =>
    intro t
    cases t with
    | nil => right; right; rfl
    | cons b t' => left; rfl
  | cons a s' ih =>
    intro t
    cases t with
    | nil => right; left; rfl
    | cons b t' =>
      rcases lt_trichotomy a b with hab | hab | hab
      · left; simp only [lexLt]; rw [if_pos hab]
      · subst hab
        rcases ih t' with h | h | h
        · left; simp only [lexLt]
          rw [if_neg (lt_irrefl a), if_neg (lt_irrefl a)]; exact h
        · right; left; simp only [lexLt]
          rw [if_neg (lt_irrefl a), if_neg (lt_irrefl a)]; exact h
        · right; right; rw [h]
      · right; left; simp only [lexLt]; rw [if_pos hab]

/-! ## Stable descending sort (C7) -/

theorem mem_insertDesc (x p : Option (List Char) × Nat)
    (l : List (Option (List Char) × Nat)) :
    p ∈ insertDesc x l ↔ p = x ∨ p ∈ l := by
  induction l with
  | nil => simp [insertDesc]
  | cons y ys ih =>
    simp only [insertDesc]
    split_ifs with h
    · simp only [List.mem_cons, ih]; tauto
    · simp only [List.mem_cons]

theorem insertDesc_perm (x : Option (List Char) × Nat)
    (l : List (Option (List Char) × Nat)) :
    (insertDesc x l).Perm (x :: l) := by
  induction l with
  | nil => exact List.Perm.refl _
  | cons y ys ih =>
    simp only [insertDesc]
    split_ifs with h
    · exact (ih.cons y).trans (List.Perm.swap x y ys)
    · exact List.Perm.refl _

theorem sortByCountDesc_perm (l : List (Option (List Char) × Nat)) :
    (sortByCountDesc l).Perm l := by
  induction l with
  | nil => exact List.Perm.refl _
  | cons x xs ih => exact (insertDesc_perm x (sortByCountDesc xs)).trans (ih.cons x)

theorem insertDesc_pairwise (x : Option (List Char) × Nat)
    (l : List (Option (List Char) × Nat))
    (h : l.Pairwise (fun p q => q.2 ≤ p.2)) :
    (insertDesc x l).Pairwise (fun p q => q.2 ≤ p.2) := by
  induction l with
  | nil => simp [insertDesc]
  | cons y ys ih =>
    rw [List.pairwise_cons] at h
    simp only [insertDesc]
    split_ifs with hlt
    · rw [List.pairwise_cons]
      refine ⟨fun z hz => ?_, ih h.2⟩
      rcases (mem_insertDesc x z ys).mp hz with hzx | hzy
      · rw [hzx]; exact le_of_lt hlt
      · exact h.1 z hzy
    · rw [List.pairwise_cons]
      refine ⟨fun z hz => ?_, List.pairwise_cons.mpr h⟩
      rcases List.mem_cons.mp hz with hzy | hzy
      · rw [hzy]; exact le_of_not_lt hlt
      · exact le_trans (h.1 z hzy) (le_of_not_lt hlt)

theorem sortByCountDesc_pairwise (l : List (Option (List Char) × Nat)) :
    (sortByCountDesc l).Pairwise (fun p q => q.2 ≤ p.2) := by
  induction l with
  | nil => simp [sortByCountDesc]
  | cons x xs ih => exact insertDesc_pairwise x (sortByCountDesc xs) ih

theorem insertDesc_precedes_of (x q : Option (List Char) × Nat)
    (l : List (Option (List Char) × Nat)) (hq : q ∈ l)
    (hle : ¬(x.2 < q.2)) : Precedes x q (insertDesc x l) := by
  induction l with
  | nil => simp at hq
  | cons y ys ih =>
    simp only [insertDesc]
    split_ifs with hlt
    · rcases List.mem_cons.mp hq with hqy | hqy
      · rw [hqy] at hle; exact absurd hlt hle
      · exact Precedes.there (ih hqy)
    · exact Precedes.here hq

theorem insertDesc_precedes_mono (x p q : Option (List Char) × Nat)
    (l : List (Option (List Char) × Nat)) (h : Precedes p q l) :
    Precedes p q (insertDesc x l) := by
  induction l with
  | nil => cases h
  | cons y ys ih =>
    simp only [insertDesc]
    cases h with
    | here hb =>
      split_ifs with hlt
      · exact Precedes.here ((mem_insertDesc x q ys).mpr (Or.inr hb))
      · exact Precedes.there (Precedes.here hb)
    | there h' =>
      split_ifs with hlt
      · exact Precedes.there (ih h')
      · exact Precedes.there (Precedes.there h')

theorem sortByCountDesc_stable (l : List (Option (List Char) × Nat))
    (p q : Option (List Char) × Nat) (heq : p.2 = q.2)
    (h : Precedes p q l) : Precedes p q (sortByCountDesc l) := by
  induction l with
  | nil => cases h
  | cons x xs ih =>
    simp only [sortByCountDesc]
    cases h with
    | here hb =>
      refine insertDesc_precedes_of p q (sortByCountDesc xs)
        ((sortByCountDesc_perm xs).mem_iff.mpr hb) ?_
      rw [heq]; exact lt_irrefl q.2
    | there h' => exact insertDesc_precedes_mono x p q _ (ih h')

/-! ## `Precedes` facts (C7) -/

theorem precedes_mem {α : Type} {a b : α} {l : List α}
    (h : Precedes a b l) : a ∈ l ∧ b ∈ l := by
  induction h with
  | here hb => exact ⟨by simp, List.mem_cons_of_mem _ hb⟩
  | there h' ih => exact ⟨List.mem_cons_of_mem _ ih.1,
      List.mem_cons_of_mem _ ih.2⟩

theorem precedes_total {α : Type} {p q : α} {l : List α} (hp : p ∈ l)
    (hq : q ∈ l) (hne : p ≠ q) : Precedes p q l ∨ Precedes q p l := by
  induction l with
  | nil => simp at hp
  | cons x xs ih =>
    rcases List.mem_cons.mp hp with hpx | hpx
    · subst hpx
      rcases List.mem_cons.mp hq with hqx | hqx
      · exact absurd hqx.symm hne
      · exact Or.inl (Precedes.here hqx)
    · rcases List.mem_cons.mp hq with hqx | hqx
      · subst hqx
        exact Or.inr (Precedes.here hpx)
      · rcases ih hpx hqx with h | h
        · exact Or.inl (Precedes.there h)
        · exact Or.inr (Precedes.there h)

theorem precedes_asymm {α : Type} {p q : α} {l : List α} (hnd : l.Nodup)
    (h1 : Precedes p q l) (h2 : Precedes q p l) : False := by
  induction l with
  | nil => cases h1
  | cons x xs ih =>
    rw [List.nodup_cons] at hnd
    cases h1 with
    | here hb1 =>
      cases h2 with
      | here hb2 => exact hnd.1 hb2
      | there h2' => exact hnd.1 (precedes_mem h2').2
    | there h1' =>
      cases h2 with
      | here hb2 => exact hnd.1 (precedes_mem h1').2
      | there h2' => exact ih hnd.2 h1' h2'

theorem precedes_irrefl {α : Type} {p : α} {l : List α} (hnd : l.Nodup)
    (h : Precedes p p l) : False := precedes_asymm hnd h h

theorem precedes_take {α : Type} {p q : α} {l : List α} {n : Nat}
    (h : Precedes p q (l.take n)) : Precedes p q l := by
  induction l generalizing n with
  | nil => rw [List.take_nil] at h; cases h
  | cons x xs ih =>
    cases n with
    | zero => cases h
    | succ m =>
      rw [List.take_succ_cons] at h
      cases h with
      | here hb => exact Precedes.here (List.mem_of_mem_take hb)
      | there h' => exact Precedes.there (ih h')

theorem precedes_map_fst {p q : Option (List Char) × Nat}
    {l : List (Option (List Char) × Nat)} (h : Precedes p q l) :
    Precedes p.1 q.1 (mapKeys l) := by
  induction h with
  | here hb => exact Precedes.here (List.mem_map_of_mem Prod.fst hb)
  | there h' ih => exact Precedes.there ih

/-! ## `bump` counter lemmas (C7) -/

theorem mapKeys_cons {α : Type} (p : α × Nat) (rest : List (α × Nat)) :
    mapKeys (p :: rest) = p.1 :: mapKeys rest := rfl

theorem mem_mapKeys {α : Type} (k : α) (m : List (α × Nat)) :
    k ∈ mapKeys m ↔ ∃ n, (k, n) ∈ m := by
  simp only [mapKeys, List.mem_map]
  constructor
  · rintro ⟨⟨a, b⟩, hm, he⟩
    subst he
    exact ⟨b, hm⟩
  · rintro ⟨n, hm⟩
    exact ⟨(k, n), hm, rfl⟩

theorem cnt_cons {α : Type} [DecidableEq α] (k' : α) (n : Nat)
    (rest : List (α × Nat)) (k : α) :
    cnt ((k', n) :: rest) k = (if k' = k then n else 0) + cnt rest k := by
  simp only [cnt, List.filter_cons]
  by_cases h : k' = k
  · rw [if_pos (by simp [h]), if_pos h]
    simp
  · rw [if_neg (by simp [h]), if_neg h]
    simp

theorem bump_cons_self {α : Type} [DecidableEq α] (k : α) (n : Nat)
    (rest : List (α × Nat)) : bump ((k, n) :: rest) k = (k, n + 1) :: rest := by
  simp [bump]

theorem bump_cons_ne {α : Type} [DecidableEq α] (k' : α) (n : Nat)
    (rest : List (α × Nat)) (k : α) (h : k' ≠ k) :
    bump ((k', n) :: rest) k = (k', n) :: bump rest k := by
  simp [bump, h]

theorem keys_bump {α : Type} [DecidableEq α] (m : List (α × Nat)) (k : α) :
    mapKeys (bump m k) =
      if k ∈ mapKeys m then mapKeys m else mapKeys m ++ [k] := by
  induction m with
  | nil => simp [bump, mapKeys]
  | cons p rest ih =>
    obtain ⟨k', n⟩ := p
    by_cases h1 : k' = k
    · subst h1
      rw [bump_cons_self, if_pos (by rw [mapKeys_cons]; exact List.mem_cons_self _ _)]
      rfl
    · rw [bump_cons_ne k' n rest k h1, mapKeys_cons, mapKeys_cons, ih]
      by_cases h2 : k ∈ mapKeys rest
      · rw [if_pos h2, if_pos (List.mem_cons_of_mem _ h2)]
      · rw [if_neg h2, if_neg (by
          simp only [List.mem_cons]
          push_neg
          exact ⟨fun he => h1 he.symm, h2⟩)]
        rfl

theorem keys_foldl_bump {α : Type} [DecidableEq α] (ks : List α) :
    ∀ m : List (α × Nat),
      mapKeys (ks.foldl bump m) = keysAfter (mapKeys m) ks := by
  induction ks with
  | nil => intro m; rfl
  | cons k rest ih =>
    intro m
    rw [List.foldl_cons, ih (bump m k), keys_bump]
    simp only [keysAfter]
    split_ifs with h
    · rfl
    · rfl

theorem keysAfter_nodup {α : Type} [DecidableEq α] (ks : List α) :
    ∀ seen : List α, seen.Nodup → (keysAfter seen ks).Nodup := by
  induction ks with
  | nil => intro seen h; exact h
  | cons k rest ih =>
    intro seen h
    simp only [keysAfter]
    split_ifs with hk
    · exact ih seen h
    · exact ih (seen ++ [k]) (by simp [List.nodup_append, h, hk])

theorem cnt_not_mem {α : Type} [DecidableEq α] (m : List (α × Nat)) (k : α)
    (h : k ∉ mapKeys m) : cnt m k = 0 := by
  induction m with
  | nil => rfl
  | cons p rest ih =>
    obtain ⟨k', n⟩ := p
    rw [mapKeys_cons, List.mem_cons] at h
    push_neg at h
    rw [cnt_cons, if_neg (fun he => h.1 he.symm), ih h.2]

theorem cnt_bump_self {α : Type} [DecidableEq α] (m : List (α × Nat))
    (k : α) : cnt (bump m k) k = cnt m k + 1 := by
  induction m with
  | nil => simp [bump, cnt_cons, cnt]
  | cons p rest ih =>
    obtain ⟨k', n⟩ := p
    by_cases h1 : k' = k
    · subst h1
      rw [bump_cons_self, cnt_cons, cnt_cons, if_pos rfl, if_pos rfl]
      omega
    · rw [bump_cons_ne k' n rest k h1, cnt_cons, cnt_cons, if_neg h1, ih]
      omega

theorem cnt_bump_ne {α : Type} [DecidableEq α] (m : List (α × Nat))
    (k k' : α) (h : k' ≠ k) : cnt (bump m k) k' = cnt m k' := by
  induction m with
  | nil =>
    rw [show bump ([] : List (α × Nat)) k = [(k, 1)] from rfl, cnt_cons,
      if_neg (fun he => h he.symm)]
    simp [cnt]
  | cons p rest ih =>
    obtain ⟨k'', n⟩ := p
    by_cases h1 : k'' = k
    · subst h1
      rw [bump_cons_self, cnt_cons, cnt_cons,
        if_neg (fun he => h he.symm), if_neg (fun he => h he.symm)]
    · rw [bump_cons_ne k'' n rest k h1, cnt_cons, cnt_cons, ih]

theorem cnt_foldl_bump {α : Type} [DecidableEq α] (ks : List α) :
    ∀ (m : List (α × Nat)) (k : α),
      cnt (ks.foldl bump m) k =
        cnt m k + List.countP (fun y => decide (y = k)) ks := by
  induction ks with
  | nil => intro m k; simp
  | cons y rest ih =>
    intro m k
    rw [List.foldl_cons, ih (bump m y) k]
    by_cases hy : y = k
    · subst hy
      rw [cnt_bump_self]
      simp [List.countP_cons]
      omega
    · rw [cnt_bump_ne m y k (fun he => hy he.symm)]
      simp [List.countP_cons, hy]

theorem pairs_cnt {α : Type} [DecidableEq α] (m : List (α × Nat))
    (hnd : (mapKeys m).Nodup) (p : α × Nat) (hp : p ∈ m) :
    p.2 = cnt m p.1 := by
  induction m with
  | nil => simp at hp
  | cons q rest ih =>
    obtain ⟨k', n⟩ := q
    rw [mapKeys_cons, List.nodup_cons] at hnd
    rcases List.mem_cons.mp hp with hph | hph
    · subst hph
      rw [cnt_cons, if_pos rfl, cnt_not_mem rest _ hnd.1]
      simp
    · have hkne : k' ≠ p.1 := by
        intro he
        refine hnd.1 ?_
        rw [he]
        show p.1 ∈ List.map Prod.fst rest
        exact List.mem_map_of_mem Prod.fst hph
      rw [cnt_cons, if_neg hkne, ih hnd.2 hph]
      omega

/-! ## First-seen order of the counter keys (C7) -/

theorem precedes_append_singleton {α : Type} {a b k : α} {s : List α}
    (h : Precedes a b (s ++ [k])) :
    Precedes a b s ∨ (a ∈ s ∧ b = k) := by
  induction s with
  | nil =>
    simp only [List.nil_append] at h
    cases h with
    | here hb => simp at hb
    | there h' => cases h'
  | cons x s' ih =>
    rw [List.cons_append] at h
    cases h with
    | here hb =>
      rcases List.mem_append.mp hb with hbs | hbk
      · exact Or.inl (Precedes.here hbs)
      · exact Or.inr ⟨List.mem_cons_self _ _, by simpa using hbk⟩
    | there h' =>
      rcases ih h' with hs | ⟨ha, hb⟩
      · exact Or.inl (Precedes.there hs)
      · exact Or.inr ⟨List.mem_cons_of_mem _ ha, hb⟩

theorem keysAfter_precedes {α : Type} [DecidableEq α] (ks : List α) :
    ∀ (seen : List α) (a b : α), seen.Nodup →
      Precedes a b (keysAfter seen ks) →
      Precedes a b seen ∨ (a ∈ seen ∧ b ∉ seen) ∨
        (a ∉ seen ∧ b ∉ seen ∧ firstBefore a b ks) := by
  induction ks with
  | nil => intro seen a b _ h; exact Or.inl h
  | cons k rest ih =>
    intro seen a b hnd h
    simp only [keysAfter] at h
    split_ifs at h with hk
    · rcases ih seen a b hnd h with h1 | h2 | h3
      · exact Or.inl h1
      · exact Or.inr (Or.inl h2)
      · refine Or.inr (Or.inr ⟨h3.1, h3.2.1, ?_⟩)
        exact Or.inr ⟨fun he => h3.1 (he ▸ hk), fun he => h3.2.1 (he ▸ hk),
          h3.2.2⟩
    · have hnd2 : (seen ++ [k]).Nodup := by
        simp [List.nodup_append, hnd, hk]
      rcases ih (seen ++ [k]) a b hnd2 h with h1 | h2 | h3
      · rcases precedes_append_singleton h1 with hs | ⟨ha, hb⟩
        · exact Or.inl hs
        · exact Or.inr (Or.inl ⟨ha, hb ▸ hk⟩)
      · have hbs : b ∉ seen := fun hbb => h2.2 (by simp [hbb])
        have hbk : b ≠ k := fun he => h2.2 (by simp [he])
        rcases List.mem_append.mp h2.1 with ha | ha
        · exact Or.inr (Or.inl ⟨ha, hbs⟩)
        · have hak : a = k := by simpa using ha
          refine Or.inr (Or.inr ⟨hak ▸ hk, hbs, ?_⟩)
          exact Or.inl ⟨hak.symm, fun he => hbk (he.symm.trans hak)⟩
      · have h3a : a ∉ seen := fun hh => h3.1 (by simp [hh])
        have h3ak : a ≠ k := fun he => h3.1 (by simp [he])
        have h3b : b ∉ seen := fun hh => h3.2.1 (by simp [hh])
        have h3bk : b ≠ k := fun he => h3.2.1 (by simp [he])
        exact Or.inr (Or.inr ⟨h3a, h3b,
          Or.inr ⟨fun he => h3ak he.symm, fun he => h3bk he.symm, h3.2.2⟩⟩)

/-- The keys of the channel counter, ordered by first occurrence;
`Precedes` on the capped, sorted `top_channels` list with equal counts
forces the first-seen order of the underlying key stream. -/
theorem top_channels_tie_first_seen (ks : List (Option (List Char)))
    (p q : Option (List Char) × Nat) (hpq : p.2 = q.2)
    (hprec : Precedes p q ((sortByCountDesc (ks.foldl bump [])).take 10)) :
    firstBefore p.1 q.1 ks := by
  have hkeys_eq : mapKeys (ks.foldl bump []) = keysAfter [] ks := by
    rw [keys_foldl_bump]
    rfl
  have hkeysnd : (mapKeys (ks.foldl bump [])).Nodup := by
    rw [hkeys_eq]
    exact keysAfter_nodup ks [] List.nodup_nil
  have hmnd : (ks.foldl bump []).Nodup := List.Nodup.of_map Prod.fst hkeysnd
  have hsortnd : (sortByCountDesc (ks.foldl bump [])).Nodup :=
    (sortByCountDesc_perm (ks.foldl bump [])).nodup_iff.mpr hmnd
  have htakend : ((sortByCountDesc (ks.foldl bump [])).take 10).Nodup :=
    hsortnd.sublist (List.take_sublist 10 _)
  have hne : p ≠ q := by
    intro he
    exact precedes_irrefl htakend (he ▸ hprec)
  have hsort : Precedes p q (sortByCountDesc (ks.foldl bump [])) :=
    precedes_take hprec
  have hpm : p ∈ ks.foldl bump [] :=
    (sortByCountDesc_perm _).subset (precedes_mem hsort).1
  have hqm : q ∈ ks.foldl bump [] :=
    (sortByCountDesc_perm _).subset (precedes_mem hsort).2
  have hm : Precedes p q (ks.foldl bump []) := by
    rcases precedes_total hpm hqm hne with h | h
    · exact h
    · exact absurd (sortByCountDesc_stable _ q p hpq.symm h)
        (fun hs => precedes_asymm hsortnd hsort hs)
  have hkeys : Precedes p.1 q.1 (mapKeys (ks.foldl bump [])) :=
    precedes_map_fst hm
  rw [hkeys_eq] at hkeys
  rcases keysAfter_precedes ks [] p.1 q.1 List.nodup_nil hkeys with h | h | h
  · cases h
  · simp at h
  · exact h.2.2

theorem mem_keysAfter {α : Type} [DecidableEq α] (ks : List α) :
    ∀ (seen : List α) (x : α), x ∈ keysAfter seen ks →
      x ∈ seen ∨ x ∈ ks := by
  induction ks with
  | nil => intro seen x h; exact Or.inl h
  | cons k rest ih =>
    intro seen x h
    simp only [keysAfter] at h
    split_ifs at h with hk
    · rcases ih seen x h with h1 | h1
      · exact Or.inl h1
      · exact Or.inr (List.mem_cons_of_mem _ h1)
    · rcases ih (seen ++ [k]) x h with h1 | h1
      · rcases List.mem_append.mp h1 with h2 | h2
        · exact Or.inl h2
        · exact Or.inr (by simp at h2; simp [h2])
      · exact Or.inr (List.mem_cons_of_mem _ h1)

theorem foldl_bump_keys_nodup {α : Type} [DecidableEq α] (ks : List α) :
    (mapKeys (ks.foldl bump [])).Nodup := by
  have : mapKeys (ks.foldl bump ([] : List (α × Nat))) = keysAfter [] ks := by
    rw [keys_foldl_bump]; rfl
  rw [this]
  exact keysAfter_nodup ks [] List.nodup_nil

/-! ## C7 -/

/-- C7 counterexample: in a two-record batch whose view counts are 0 and 10
(both present, non-null, no error), the reported minimum is 10 and the
average is 10 — the record with a view count of 0 is excluded by the truthy
check `if video.get("views")`, although the claim-side population of
present non-null view counts is `[0, 10]` with minimum 0 and average 5. -/
theorem summary_views_truthiness_cex :
    ((create_summary_report cexViewsList).map fun r =>
        (r.view_statistics.min_views, r.view_statistics.average_views)) =
      some (10, 10) ∧
    ((cexViewsList.filter fun v => !optTruthy v.error && v.views.isSome).map
        fun v => v.views.getD 0) = [0, 10] ∧
    pyMin intLt [0, 10] = some 0 ∧
    Int.tdiv (0 + 10) 2 = 5 ∧ (10 : Int) ≠ 0 ∧ (10 : Int) ≠ 5 := by
  refine ⟨by decide, by decide, by decide, by decide, by decide, by decide⟩

/-- C7 (amended): in the summary report the view statistics (total, average,
max, min) are computed over exactly the non-error records with a truthy
(present and nonzero) view count — a present view count of 0 is excluded
like a missing one; top channels are capped at 10, sorted by descending
frequency (true occurrence counts over the non-error records), with ties
broken by first-seen order; earliest/latest are the lexicographic min/max of
the present (nonempty) date strings of non-error records. -/
theorem summary_report_statistics (l : List VDict) (rep : SummaryReport)
    (h : create_summary_report l = some rep) :
    (rep.view_statistics.total_views = (truthyViewsList l).sum ∧
      rep.view_statistics.average_views =
        (if (truthyViewsList l).length = 0 then 0
         else Int.tdiv (truthyViewsList l).sum (truthyViewsList l).length) ∧
      (truthyViewsList l = [] → rep.view_statistics.max_views = 0 ∧
        rep.view_statistics.min_views = 0) ∧
      (truthyViewsList l ≠ [] →
        rep.view_statistics.max_views ∈ truthyViewsList l ∧
        (∀ v ∈ truthyViewsList l, v ≤ rep.view_statistics.max_views) ∧
        rep.view_statistics.min_views ∈ truthyViewsList l ∧
        (∀ v ∈ truthyViewsList l, rep.view_statistics.min_views ≤ v))) ∧
    (rep.top_channels.length ≤ 10 ∧
      rep.top_channels.Pairwise (fun p q => q.2 ≤ p.2) ∧
      (∀ p ∈ rep.top_channels,
        p.2 = List.countP (fun y => decide (y = p.1)) (channelKeys l) ∧
        p.1 ∈ channelKeys l) ∧
      (∀ p q, Precedes p q rep.top_channels → p.2 = q.2 →
        firstBefore p.1 q.1 (channelKeys l))) ∧
    ((datesList l = [] → rep.earliest = none ∧ rep.latest = none) ∧
      (∀ d, rep.earliest = some d → d ∈ datesList l ∧
        ∀ x ∈ datesList l, lexLt x d = false) ∧
      (∀ d, rep.latest = some d → d ∈ datesList l ∧
        ∀ x ∈ datesList l, lexLt d x = false)) := by
  have hl : l ≠ [] := by
    intro he
    rw [he] at h
    simp [create_summary_report] at h
  rw [create_summary_report_eq l hl, Option.some_inj] at h
  subst h
  dsimp only
  refine ⟨⟨rfl, rfl, ?_, ?_⟩, ⟨?_, ?_, ?_, ?_⟩, ⟨?_, ?_, ?_⟩⟩
  · intro htv
    constructor <;> simp [htv, pyMax, pyMin]
  · intro htv
    obtain ⟨mx, hmx⟩ := pyMax_isSome intLt (truthyViewsList l) htv
    obtain ⟨mn, hmn⟩ := pyMin_isSome intLt (truthyViewsList l) htv
    have hMX := pyMax_spec intLt intLt_trans intLt_irrefl intLt_total _ mx hmx
    have hMN := pyMin_spec intLt intLt_trans intLt_irrefl intLt_total _ mn hmn
    refine ⟨?_, ?_, ?_, ?_⟩
    · rw [hmx]; simpa using hMX.1
    · intro v hv
      have hb : ¬(mx < v) := by simpa [intLt] using hMX.2 v hv
      rw [hmx]
      simp only [Option.getD_some]
      omega
    · rw [hmn]; simpa using hMN.1
    · intro v hv
      have hb : ¬(v < mn) := by simpa [intLt] using hMN.2 v hv
      rw [hmn]
      simp only [Option.getD_some]
      omega
  · rw [List.length_take]
    exact min_le_left _ _
  · exact (sortByCountDesc_pairwise _).sublist (List.take_sublist _ _)
  · intro p hp
    have hpm : p ∈ (channelKeys l).foldl bump [] :=
      (sortByCountDesc_perm _).subset (List.mem_of_mem_take hp)
    have hnd := foldl_bump_keys_nodup (channelKeys l)
    constructor
    · rw [pairs_cnt _ hnd p hpm, cnt_foldl_bump (channelKeys l) [] p.1]
      simp [cnt]
    · have hmem : p.1 ∈ mapKeys ((channelKeys l).foldl bump []) :=
        List.mem_map_of_mem Prod.fst hpm
      rw [keys_foldl_bump] at hmem
      rcases mem_keysAfter (channelKeys l) _ p.1 hmem with h1 | h1
      · simp [mapKeys] at h1
      · exact h1
  · intro p q hp hpq
    exact top_channels_tie_first_seen (channelKeys l) p q hpq hp
  · intro hd
    constructor <;> simp [hd, pyMin, pyMax]
  · intro d hd
    exact pyMin_spec lexLt lexLt_trans lexLt_irrefl lexLt_total _ d hd
  · intro d hd
    exact pyMax_spec lexLt lexLt_trans lexLt_irrefl lexLt_total _ d hd

/-- Witness for C7's amended theorem, at the concrete two-record batch. -/
theorem summary_report_statistics_witness :
    ((create_summary_report cexViewsList).map fun r =>
        r.view_statistics.total_views) =
      some ((truthyViewsList cexViewsList).sum) := by
  obtain ⟨rep, hrep⟩ : ∃ rep, create_summary_report cexViewsList = some rep :=
    ⟨_, rfl⟩
  have h := (summary_report_statistics cexViewsList rep hrep).1.1
  rw [hrep]
  simp [h]

end YtInfoExtract
